import Mathlib

/-!
Verification of `RepBlandAltman.py`, a repeated-measures Bland-Altman
analysis pipeline.

Embedding conventions:
* A long-format dataset row (`participants`, `variables`) is a pair
  `String × ℚ`; a `Dataset` is the list of rows in file order.
  Floating-point values are idealised as exact rationals.
* `pandas.unique` (first-occurrence order) is `pdUnique`.
* `Series.str.count(p)` counts non-overlapping occurrences of the pattern in
  each entry; for the plain (regex-metacharacter-free) participant
  identifiers used here this is literal substring counting, embedded by
  `strCount`.
* Division by zero in ℚ yields 0 (the Lean convention); the points where the
  Python code divides by zero are called out explicitly in the theorems.
* `np.sqrt` is `Real.sqrt`; only the final `RBA_SD` leaves ℚ.
-/

namespace RepBlandAltman

/-- A long-format dataset: one row per observation, with the participant
identifier (`participants` column) and the measured difference value
(`variables` column). -/
abbrev Dataset := List (String × ℚ)

/-- `leadsWith pat s` : `pat` is an initial segment of `s`. -/
def leadsWith : List Char → List Char → Bool
  | [], _ => true
  | _ :: _, [] => false
  | a :: as, b :: bs => a == b && leadsWith as bs

/-- Fuel-indexed worker for non-overlapping substring counting: at each
position, either consume a whole match of `pat` or advance one character. -/
def countOccsAux : Nat → List Char → List Char → Nat
  | 0, _, _ => 0
  | fuel + 1, pat, s =>
    match s with
    | [] => 0
    | _ :: rest =>
      if leadsWith pat s then 1 + countOccsAux fuel pat (s.drop pat.length)
      else countOccsAux fuel pat rest

/-- `strCount pat s`: the number of non-overlapping occurrences of `pat` in
`s`, scanning left to right — the semantics of pandas
`Series.str.count(pat)` for a literal pattern (`s.length + 1` fuel suffices:
every step drops at least one character of `s`, except that an empty pattern
matches once per scan position, as in Python). -/
def strCount (pat s : String) : Nat :=
  countOccsAux (s.data.length + 1) pat.data s.data

/-- Worker for `pdUnique`: keep each key the first time it is seen. -/
def pdUniqueAux (seen : List String) : List String → List String
  | [] => []
  | p :: rest =>
    if p ∈ seen then pdUniqueAux seen rest
    else p :: pdUniqueAux (p :: seen) rest

/-- `pandas.unique`: the distinct entries of a list in first-occurrence
order. -/
def pdUnique (l : List String) : List String := pdUniqueAux [] l

/-- `observations(data)` (source lines 42-48): for each participant `p`
(in first-occurrence order), `np.sum(data['participants'].str.count(p))` —
the total number of substring occurrences of `p` across the whole
participant column, NOT the number of rows exactly equal to `p`. -/
def observations (data : Dataset) : List Nat :=
  (pdUnique (data.map Prod.fst)).map
    (fun p => ((data.map Prod.fst).map (fun s => strCount p s)).sum)

/-- The number of rows of `data` whose participant identifier is exactly
`p` (the exact-match count the specification asks for). -/
def exactCount (data : Dataset) (p : String) : Nat :=
  (data.filter (fun r => r.1 == p)).length

/-- The arithmetic mean of a list of values (`Series.mean()`): the sum
divided by the length. -/
def listMean (l : List ℚ) : ℚ := l.sum / (l.length : ℚ)

/-- The distinct participants of the dataset — the levels of the
categorical factor of the `variables ~ participants` model — in
first-occurrence order. -/
def subjects (data : Dataset) : List String := pdUnique (data.map Prod.fst)

/-- The values of the rows whose participant identifier is exactly `p`:
the group of subject `p` in the one-way ANOVA (the OLS fit groups by exact
equality of the categorical level, unlike `observations`). -/
def groupValues (data : Dataset) (p : String) : List ℚ :=
  (data.filter (fun r => r.1 == p)).map Prod.snd

/-- The residual sum of squares of the OLS fit of
`variables ~ participants` (source lines 52-53): the fitted value of each
row is its group mean, so the residual sum of squares is
`Σ_p Σ_{x in group p} (x − mean_p)²` — the `sum_sq` of the `Residual` row
of `anova_lm`. -/
def SS_residual (data : Dataset) : ℚ :=
  ((subjects data).map (fun p =>
    ((groupValues data p).map
      (fun x => (x - listMean (groupValues data p)) ^ 2)).sum)).sum

/-- The total sum of squares of the `variables` column about its grand
mean. -/
def SS_total (data : Dataset) : ℚ :=
  ((data.map Prod.snd).map
    (fun x => (x - listMean (data.map Prod.snd)) ^ 2)).sum

/-- `ANOVA_MS(data)` (source lines 51-57). `anova_lm(model, typ=2)` on the
one-way model assigns the `participants` factor the drop in residual sum of
squares relative to the intercept-only model, `SS_total − SS_residual`,
with `k − 1` degrees of freedom, and the `Residual` row gets `SS_residual`
with `N − k` degrees of freedom; the function returns each `sum_sq` divided
by its `df`. -/
def ANOVA_MS (data : Dataset) : ℚ × ℚ :=
  ((SS_total data - SS_residual data) / (((subjects data).length : ℚ) - 1),
    SS_residual data / ((data.length : ℚ) - ((subjects data).length : ℚ)))

/-- The `num_observations` local of `RBA_SD` (source line 68): the harmonic
adjustment `((Σ n_i)² − Σ n_i²) / ((k − 1) · Σ n_i)` of the observation
counts (`np.square`, `np.sum` and `len` on the int64 count array, combined
with true division). -/
def num_observations (obsv : List Nat) : ℚ :=
  (((obsv.sum : ℚ)) ^ 2 - ((obsv.map (fun m : Nat => ((m : ℚ)) ^ 2)).sum)) /
    ((((obsv.length : ℚ)) - 1) * (obsv.sum : ℚ))

/-- The radicand of `RBA_SD` (source lines 62-72): the total variance
`(MS_between − MS_within) / num_observations + MS_within`, with the
source's intermediate names. -/
def RBA_totalVariance (obsv : List Nat) (MS_between MS_within : ℚ) : ℚ :=
  let diff_accrossSubjects := MS_between - MS_within
  let diff_withinSubject := MS_within
  let varianceHetro := diff_accrossSubjects / num_observations obsv
  varianceHetro + diff_withinSubject

/-- `RBA_SD(obsv, MS_between, MS_within)` (source lines 61-76):
`np.sqrt(totalVariance)`, idealised as the real square root. -/
noncomputable def RBA_SD (obsv : List Nat) (MS_between MS_within : ℚ) : ℝ :=
  Real.sqrt ((RBA_totalVariance obsv MS_between MS_within : ℚ) : ℝ)

/-- `RBA_values(data, SD)` (source lines 79-84): the bias is the mean of the
whole `variables` column, and the limits of agreement are
`bias - SD * 1.96` and `bias + SD * 1.96`. -/
def RBA_values (data : Dataset) (SD : ℚ) : ℚ × ℚ × ℚ :=
  let bias := listMean (data.map Prod.snd)
  (bias, bias - SD * 1.96, bias + SD * 1.96)

/-- `commonSenseTesting(data, LOA_L, LOA_U)` (source lines 89-94): the
number of rows whose `variables` value satisfies
`LOA_L < value ∧ value < LOA_U` (both strict), divided by the number of
rows. -/
def commonSenseTesting (data : Dataset) (LOA_L LOA_U : ℚ) : ℚ :=
  let commonSense :=
    (data.map Prod.snd).countP (fun x => decide (LOA_L < x) && decide (x < LOA_U))
  ((commonSense : ℚ)) / (((data.map Prod.snd).length : ℚ))

end RepBlandAltman

namespace RepBlandAltman

/-- Summing a pointwise sum of two functions over a list splits into two
sums. -/
lemma sum_map_add {α : Type} (l : List α) (f g : α → ℚ) :
    (l.map (fun x => f x + g x)).sum = (l.map f).sum + (l.map g).sum := by
  induction l with
  | nil => simp
  | cons a t ih =>
    simp only [List.map_cons, List.sum_cons, ih]
    ring

/-- If `a` is not a key of the list, the keyed indicator sums to zero. -/
lemma sum_if_not_mem (c : ℚ) (a : String) : ∀ keys : List String,
    a ∉ keys → ((keys.map (fun p => if a == p then c else 0)).sum = 0)
  | [], _ => rfl
  | p :: rest, h => by
    have hap : ¬(a = p) := fun hh => h (hh ▸ List.mem_cons_self p rest)
    have hrest : a ∉ rest := fun hh => h (List.mem_cons_of_mem p hh)
    simp only [List.map_cons, List.sum_cons,
      sum_if_not_mem c a rest hrest, add_zero]
    simp [hap]

/-- Over a duplicate-free key list containing `a`, the keyed indicator sums
to exactly `c`. -/
lemma sum_if_key (c : ℚ) (a : String) : ∀ keys : List String,
    keys.Nodup → a ∈ keys →
    ((keys.map (fun p => if a == p then c else 0)).sum = c)
  | [], _, hm => absurd hm (List.not_mem_nil a)
  | p :: rest, hnd, hm => by
    rcases List.nodup_cons.mp hnd with ⟨hpr, hndr⟩
    simp only [List.map_cons, List.sum_cons]
    by_cases hap : a = p
    · have : a ∉ rest := hap ▸ hpr
      rw [sum_if_not_mem c a rest this]
      simp [hap]
    · have har : a ∈ rest := by
        rcases List.mem_cons.mp hm with h | h
        · exact absurd h hap
        · exact h
      rw [sum_if_key c a rest hndr har]
      simp [hap]

/-- Partitioning a dataset by a duplicate-free list of keys that covers
every row: summing `f` group by group equals summing `f` over the whole
value column. -/
lemma sum_over_groups (f : ℚ → ℚ) : ∀ (data : Dataset) (keys : List String),
    keys.Nodup → (∀ r ∈ data, r.1 ∈ keys) →
    ((keys.map (fun p =>
        (((data.filter (fun r => r.1 == p)).map Prod.snd).map f).sum)).sum
      = ((data.map Prod.snd).map f).sum)
  | [], keys, _, _ => by simp
  | r :: rest, keys, hnd, hcov => by
    have hstep : ∀ p : String,
        ((((r :: rest).filter (fun x => x.1 == p)).map Prod.snd).map f).sum
          = (if r.1 == p then f r.2 else 0)
            + (((rest.filter (fun x => x.1 == p)).map Prod.snd).map f).sum := by
      intro p
      by_cases h : r.1 == p
      · simp [List.filter_cons, h]
      · simp [List.filter_cons, h]
    have h1 : keys.map (fun p =>
          ((((r :: rest).filter (fun x => x.1 == p)).map Prod.snd).map f).sum)
        = keys.map (fun p => (if r.1 == p then f r.2 else 0)
            + (((rest.filter (fun x => x.1 == p)).map Prod.snd).map f).sum) :=
      List.map_congr_left (fun p _ => hstep p)
    rw [h1,
      sum_map_add keys (fun p => if r.1 == p then f r.2 else 0)
        (fun p => (((rest.filter (fun x => x.1 == p)).map Prod.snd).map f).sum),
      sum_if_key (f r.2) r.1 keys hnd (hcov r (List.mem_cons_self r rest)),
      sum_over_groups f rest keys hnd
        (fun x hx => hcov x (List.mem_cons_of_mem r hx))]
    simp

/-- Expansion of a sum of squared deviations about an arbitrary centre. -/
lemma sq_dev_sum (g : ℚ) : ∀ l : List ℚ,
    ((l.map (fun x => (x - g) ^ 2)).sum
      = (l.map (fun x => x ^ 2)).sum - 2 * g * l.sum + (l.length : ℚ) * g ^ 2)
  | [] => by simp
  | a :: t => by
    simp only [List.map_cons, List.sum_cons, List.length_cons, sq_dev_sum g t]
    push_cast
    ring

/-- Squared deviations about any centre `g` decompose into squared
deviations about the mean plus the size-weighted squared shift of the
mean. -/
lemma sq_dev_decomp (l : List ℚ) (g : ℚ) (hne : l ≠ []) :
    (l.map (fun x => (x - g) ^ 2)).sum
      = (l.map (fun x => (x - listMean l) ^ 2)).sum
        + (l.length : ℚ) * (listMean l - g) ^ 2 := by
  have hlen : ((l.length : ℚ)) ≠ 0 := by
    have h0 : 0 < l.length := List.length_pos.mpr hne
    have h1 : l.length ≠ 0 := Nat.pos_iff_ne_zero.mp h0
    exact_mod_cast h1
  have hmean : l.sum = (l.length : ℚ) * listMean l := by
    unfold listMean
    field_simp
  rw [sq_dev_sum g l, sq_dev_sum (listMean l) l, hmean]
  ring

/-- `pdUniqueAux` produces a duplicate-free list disjoint from `seen`. -/
lemma pdUniqueAux_nodup : ∀ (l seen : List String),
    ((pdUniqueAux seen l).Nodup ∧ ∀ q ∈ pdUniqueAux seen l, q ∉ seen)
  | [], seen => by simp [pdUniqueAux]
  | p :: rest, seen => by
    unfold pdUniqueAux
    by_cases hps : p ∈ seen
    · simpa [hps] using pdUniqueAux_nodup rest seen
    · rcases pdUniqueAux_nodup rest (p :: seen) with ⟨hnd, hdisj⟩
      simp only [if_neg hps]
      constructor
      · refine List.nodup_cons.mpr ⟨?_, hnd⟩
        intro hmem
        exact hdisj p hmem (List.mem_cons_self p seen)
      · intro q hq
        rcases List.mem_cons.mp hq with h | h
        · exact h ▸ hps
        · intro hqs
          exact hdisj q h (List.mem_cons_of_mem p hqs)

/-- The distinct-subject list is duplicate-free. -/
lemma pdUnique_nodup (l : List String) : (pdUnique l).Nodup :=
  (pdUniqueAux_nodup l []).1

/-- Any entry of the list that is not in `seen` survives into
`pdUniqueAux seen`. -/
lemma mem_pdUniqueAux : ∀ (l seen : List String) (q : String),
    q ∈ l → q ∉ seen → q ∈ pdUniqueAux seen l
  | [], _, q, hq, _ => absurd hq (List.not_mem_nil q)
  | p :: rest, seen, q, hq, hqs => by
    unfold pdUniqueAux
    by_cases hps : p ∈ seen
    · simp only [if_pos hps]
      have hqr : q ∈ rest := by
        rcases List.mem_cons.mp hq with h | h
        · exact absurd (h ▸ hps) hqs
        · exact h
      exact mem_pdUniqueAux rest seen q hqr hqs
    · simp only [if_neg hps]
      by_cases hqp : q = p
      · exact hqp ▸ List.mem_cons_self p _
      · have hqr : q ∈ rest := by
          rcases List.mem_cons.mp hq with h | h
          · exact absurd h hqp
          · exact h
        have hqps : q ∉ p :: seen := by
          intro hh
          rcases List.mem_cons.mp hh with h | h
          · exact hqp h
          · exact hqs h
        exact List.mem_cons_of_mem p (mem_pdUniqueAux rest (p :: seen) q hqr hqps)

/-- Every entry of the list appears in its distinct-subject list. -/
lemma mem_pdUnique (l : List String) (q : String) (h : q ∈ l) :
    q ∈ pdUnique l :=
  mem_pdUniqueAux l [] q h (List.not_mem_nil q)

/-- `pdUniqueAux` only returns entries of the scanned list. -/
lemma pdUniqueAux_subset : ∀ (l seen : List String) (q : String),
    q ∈ pdUniqueAux seen l → q ∈ l
  | [], _, q, hq => absurd hq (List.not_mem_nil q)
  | p :: rest, seen, q, hq => by
    unfold pdUniqueAux at hq
    by_cases hps : p ∈ seen
    · rw [if_pos hps] at hq
      exact List.mem_cons_of_mem p (pdUniqueAux_subset rest seen q hq)
    · rw [if_neg hps] at hq
      rcases List.mem_cons.mp hq with h | h
      · exact h ▸ List.mem_cons_self p rest
      · exact List.mem_cons_of_mem p (pdUniqueAux_subset rest (p :: seen) q h)

/-- Every listed subject has at least one row, hence a non-empty group. -/
lemma groupValues_ne_nil (data : Dataset) (p : String)
    (hp : p ∈ subjects data) : groupValues data p ≠ [] := by
  have hmem : p ∈ data.map Prod.fst := pdUniqueAux_subset _ _ _ hp
  rcases List.mem_map.mp hmem with ⟨r, hr, hrp⟩
  have hv : r.2 ∈ groupValues data p := by
    unfold groupValues
    exact List.mem_map_of_mem _ (List.mem_filter.mpr ⟨hr, by simp [hrp]⟩)
  exact List.ne_nil_of_mem hv

/-- Claim C1: the specification demands that `observations` count by exact
identifier match, so that the count for a participant `s` that is a string
prefix of another participant `t` excludes the rows of `t`. The code counts
substring occurrences instead: on the dataset with one row for "P1" and one
row for "P10", it reports 2 observations for "P1" (the exact-match count is
1) — the substring-matching bug class the spec itself warns about. -/
theorem observations_substring_bug :
    observations [("P1", (0 : ℚ)), ("P10", 0)] = [2, 1] ∧
    exactCount [("P1", (0 : ℚ)), ("P10", 0)] "P1" = 1 := by
  constructor <;> rfl

/-- Claim C2: the spec requires that the per-subject counts sum to the row
count. On the dataset with one row for "S1" and one row for "S10" (two
subjects, each with one observation), the counts returned by `observations`
sum to 3 while the dataset has 2 rows, because the row of "S10" is also
counted for "S1". -/
theorem observations_sum_mismatch :
    ((observations [("S1", (1 : ℚ)), ("S10", 2)]).sum = 3 ∧
      (pdUnique (([("S1", (1 : ℚ)), ("S10", 2)] : Dataset).map Prod.fst)).length = 2) ∧
    ([("S1", (1 : ℚ)), ("S10", 2)] : Dataset).length = 2 := by
  refine ⟨⟨?_, ?_⟩, ?_⟩ <;> rfl

/-- Claim C4: for counts with k ≥ 2 entries and positive total, and mean
squares whose resulting total variance is non-negative, `RBA_SD` equals
`sqrt((MS_between − MS_within) / h + MS_within)` with
`h = ((Σ n_i)² − Σ n_i²) / ((k − 1) · Σ n_i)`. -/
theorem RBA_SD_formula (obsv : List Nat) (MS_between MS_within : ℚ)
    (hk : 2 ≤ obsv.length) (hs : 0 < obsv.sum)
    (hv : 0 ≤ RBA_totalVariance obsv MS_between MS_within) :
    RBA_SD obsv MS_between MS_within =
      Real.sqrt ((((MS_between - MS_within) /
        ((((obsv.sum : ℚ)) ^ 2 - ((obsv.map (fun m : Nat => ((m : ℚ)) ^ 2)).sum)) /
          ((((obsv.length : ℚ)) - 1) * (obsv.sum : ℚ))) + MS_within : ℚ) : ℝ)) :=
  rfl

/-- Witness for C4: counts [2, 2] with MS_between = 3, MS_within = 1 satisfy
the hypotheses, and there the total variance evaluates to 2. -/
theorem RBA_SD_formula_witness :
    (2 ≤ ([2, 2] : List Nat).length ∧ 0 < ([2, 2] : List Nat).sum ∧
      0 ≤ RBA_totalVariance [2, 2] 3 1) ∧
    RBA_SD [2, 2] 3 1 = Real.sqrt (((2 : ℚ) : ℝ)) :=
  ⟨⟨by decide, by decide,
      by norm_num [RBA_totalVariance, num_observations]⟩,
    (RBA_SD_formula [2, 2] 3 1 (by decide) (by decide)
        (by norm_num [RBA_totalVariance, num_observations])).trans
      (by norm_num)⟩

/-- Claim C7: on a balanced design — k ≥ 2 subjects, each with the same
count n ≥ 1 — the harmonic adjustment term of `RBA_SD` reduces exactly
to n. -/
theorem num_observations_balanced (k n : Nat) (hk : 2 ≤ k) (hn : 1 ≤ n) :
    num_observations (List.replicate k n) = (n : ℚ) := by
  have hk1 : ((k : ℚ)) - 1 ≠ 0 := by
    have : (2 : ℚ) ≤ (k : ℚ) := by exact_mod_cast hk
    intro h
    nlinarith
  have hkq : ((k : ℚ)) ≠ 0 := by
    have : (2 : ℚ) ≤ (k : ℚ) := by exact_mod_cast hk
    intro h
    nlinarith
  have hnq : ((n : ℚ)) ≠ 0 := by
    have : (1 : ℚ) ≤ (n : ℚ) := by exact_mod_cast hn
    intro h
    nlinarith
  unfold num_observations
  rw [List.map_replicate, List.sum_replicate, List.sum_replicate,
    List.length_replicate]
  simp only [smul_eq_mul, nsmul_eq_mul]
  push_cast
  field_simp
  ring

/-- Witness for C7: with k = 2 subjects of n = 3 observations each, the
harmonic adjustment is exactly 3. -/
theorem num_observations_balanced_witness :
    (2 ≤ 2 ∧ 1 ≤ 3) ∧ num_observations (List.replicate 2 3) = ((3 : Nat) : ℚ) :=
  ⟨⟨by decide, by decide⟩, num_observations_balanced 2 3 (by decide) (by decide)⟩

/-- Claim C8: the spec says `RBA_SD` raises `DivisionByZeroError` when k = 1
or Σ n_i = 0. The degenerate denominator `(k − 1) · Σ n_i` is indeed 0 in
both cases, but the numpy code raises nothing: int64/int64 true division by
zero emits a RuntimeWarning and yields NaN/inf, and the function returns a
NaN value. In this exact-arithmetic embedding (x / 0 = 0) the function
totals to `MS_within`, witnessing that the computation continues past the
zero division instead of failing at the component boundary. -/
theorem num_observations_degenerate_denominator :
    (((((([3] : List Nat)).length : ℚ)) - 1) * ((([3] : List Nat).sum : ℚ)) = 0 ∧
      RBA_totalVariance [3] 5 2 = 2) ∧
    ((([0, 0] : List Nat).sum : ℚ) = 0 ∧ RBA_totalVariance [0, 0] 5 2 = 2) := by
  refine ⟨⟨?_, ?_⟩, ?_, ?_⟩ <;>
    norm_num [RBA_totalVariance, num_observations]

/-- Claim C9: the spec requires a documented negative-variance policy
(`NegativeVarianceError` or clamping to zero). The code has neither branch:
on counts [0, 1, 1] with MS_between = 0 and MS_within = 1 the total
variance is exactly −1, and the code passes it straight to `np.sqrt`, which
returns NaN with a RuntimeWarning — an undefined result, not an error and
not a clamp. -/
theorem RBA_totalVariance_negative :
    RBA_totalVariance [0, 1, 1] 0 1 = -1 := by
  norm_num [RBA_totalVariance, num_observations]

/-- Claim C5: for a non-empty dataset and any SD, `RBA_values` returns the
bias as the plain arithmetic mean of all value entries (each raw row
weighted equally), with limits of agreement `bias ∓ 1.96 · SD`. -/
theorem RBA_values_spec (data : Dataset) (SD : ℚ) (hne : data ≠ []) :
    RBA_values data SD =
      ((data.map Prod.snd).sum / ((data.length : ℚ)),
        (data.map Prod.snd).sum / ((data.length : ℚ)) - 1.96 * SD,
        (data.map Prod.snd).sum / ((data.length : ℚ)) + 1.96 * SD) := by
  unfold RBA_values listMean
  rw [List.length_map]
  exact Prod.ext rfl (Prod.ext (by ring) (by ring))

/-- Witness for C5: the one-row dataset [("A", 4)] with SD = 1. -/
theorem RBA_values_spec_witness :
    ([("A", (4 : ℚ))] : Dataset) ≠ [] ∧
    RBA_values [("A", (4 : ℚ))] 1 =
      ((([("A", (4 : ℚ))] : Dataset).map Prod.snd).sum /
          (((([("A", (4 : ℚ))] : Dataset).length : ℚ))),
        (([("A", (4 : ℚ))] : Dataset).map Prod.snd).sum /
            (((([("A", (4 : ℚ))] : Dataset).length : ℚ))) - 1.96 * 1,
        (([("A", (4 : ℚ))] : Dataset).map Prod.snd).sum /
            (((([("A", (4 : ℚ))] : Dataset).length : ℚ))) + 1.96 * 1) :=
  ⟨by simp, RBA_values_spec [("A", (4 : ℚ))] 1 (by simp)⟩

/-- Claim C6: for a non-empty dataset and limits `LOA_L ≤ LOA_U`,
`commonSenseTesting` returns exactly the number of rows strictly inside the
limits divided by the row count (boundary values excluded by the strict
inequalities), and the fraction lies in [0, 1]. -/
theorem commonSenseTesting_fraction (data : Dataset) (LOA_L LOA_U : ℚ)
    (hne : data ≠ []) (hle : LOA_L ≤ LOA_U) :
    commonSenseTesting data LOA_L LOA_U =
      (((data.map Prod.snd).countP
          (fun x => decide (LOA_L < x) && decide (x < LOA_U)) : ℚ)) /
        ((data.length : ℚ)) ∧
    0 ≤ commonSenseTesting data LOA_L LOA_U ∧
    commonSenseTesting data LOA_L LOA_U ≤ 1 := by
  have hlen : 0 < ((data.length : ℚ)) := by
    have h0 : 0 < data.length := List.length_pos.mpr hne
    exact_mod_cast h0
  have hcle : (data.map Prod.snd).countP
      (fun x => decide (LOA_L < x) && decide (x < LOA_U)) ≤ data.length := by
    have h1 : (data.map Prod.snd).countP
        (fun x => decide (LOA_L < x) && decide (x < LOA_U))
          ≤ (data.map Prod.snd).length := List.countP_le_length _
    simpa using h1
  refine ⟨?_, ?_, ?_⟩
  · unfold commonSenseTesting
    rw [List.length_map]
  · unfold commonSenseTesting
    rw [List.length_map]
    positivity
  · unfold commonSenseTesting
    rw [List.length_map, div_le_one hlen]
    exact_mod_cast hcle

/-- Witness for C6: on the dataset [("A", 0), ("A", 5)] with limits −1 and
1, the value 0 is strictly inside and 5 is outside, so the fraction is
1/2. -/
theorem commonSenseTesting_fraction_witness :
    (([("A", (0 : ℚ)), ("A", 5)] : Dataset) ≠ [] ∧ (-1 : ℚ) ≤ 1) ∧
    (commonSenseTesting [("A", (0 : ℚ)), ("A", 5)] (-1) 1 =
        ((((([("A", (0 : ℚ)), ("A", 5)] : Dataset).map Prod.snd).countP
            (fun x => decide ((-1 : ℚ) < x) && decide (x < 1)) : ℚ)) /
          (((([("A", (0 : ℚ)), ("A", 5)] : Dataset).length : ℚ)))) ∧
      0 ≤ commonSenseTesting [("A", (0 : ℚ)), ("A", 5)] (-1) 1 ∧
      commonSenseTesting [("A", (0 : ℚ)), ("A", 5)] (-1) 1 ≤ 1) :=
  ⟨⟨by simp, by norm_num⟩,
    commonSenseTesting_fraction [("A", (0 : ℚ)), ("A", 5)] (-1) 1
      (by simp) (by norm_num)⟩

/-- Claim C10: for a non-empty dataset with SD = 0, `RBA_values` collapses
both limits of agreement onto the bias, and `commonSenseTesting` at those
limits returns exactly 0: the strict inequalities exclude every
observation, even observations equal to the bias. -/
theorem degenerate_SD_zero_fraction (data : Dataset) (hne : data ≠ []) :
    RBA_values data 0 =
      (listMean (data.map Prod.snd), listMean (data.map Prod.snd),
        listMean (data.map Prod.snd)) ∧
    commonSenseTesting data (listMean (data.map Prod.snd))
        (listMean (data.map Prod.snd)) = 0 := by
  constructor
  · unfold RBA_values
    norm_num
  · unfold commonSenseTesting
    have hc : (data.map Prod.snd).countP
        (fun x => decide (listMean (data.map Prod.snd) < x) &&
          decide (x < listMean (data.map Prod.snd))) = 0 := by
      refine List.countP_eq_zero.mpr ?_
      intro x hx h
      simp only [Bool.and_eq_true, decide_eq_true_eq] at h
      exact lt_irrefl _ (h.1.trans h.2)
    rw [hc]
    simp

/-- Claim C3: for a dataset with k ≥ 2 distinct subjects and N > k total
observations, `ANOVA_MS` returns the pair with
`MS_between = (Σ_i n_i · (mean_i − grand_mean)²) / (k − 1)` and
`MS_within = (Σ_i Σ_j (x_ij − mean_i)²) / (N − k)`, where `n_i` and
`mean_i` are the count and mean of subject i's values and the grand mean
is the mean of the whole value column. -/
theorem ANOVA_MS_decomposition (data : Dataset)
    (hk : 2 ≤ (subjects data).length)
    (hN : (subjects data).length < data.length) :
    ANOVA_MS data =
      (((subjects data).map (fun p => ((groupValues data p).length : ℚ)
          * (listMean (groupValues data p)
              - listMean (data.map Prod.snd)) ^ 2)).sum
        / (((subjects data).length : ℚ) - 1),
       ((subjects data).map (fun p => ((groupValues data p).map
          (fun x => (x - listMean (groupValues data p)) ^ 2)).sum)).sum
        / ((data.length : ℚ) - ((subjects data).length : ℚ))) := by
  have hcov : ∀ r ∈ data, r.1 ∈ subjects data := fun r hr =>
    mem_pdUnique _ _ (List.mem_map_of_mem _ hr)
  have hpart := sum_over_groups
    (fun x => (x - listMean (data.map Prod.snd)) ^ 2)
    data (subjects data) (pdUnique_nodup _) hcov
  have hcongr : ∀ p ∈ subjects data,
      (((data.filter (fun r => r.1 == p)).map Prod.snd).map
        (fun x => (x - listMean (data.map Prod.snd)) ^ 2)).sum
      = ((groupValues data p).map
          (fun x => (x - listMean (groupValues data p)) ^ 2)).sum
        + ((groupValues data p).length : ℚ)
          * (listMean (groupValues data p)
              - listMean (data.map Prod.snd)) ^ 2 :=
    fun p hp => sq_dev_decomp (groupValues data p) _ (groupValues_ne_nil data p hp)
  have hsplit : ((subjects data).map (fun p =>
        (((data.filter (fun r => r.1 == p)).map Prod.snd).map
          (fun x => (x - listMean (data.map Prod.snd)) ^ 2)).sum)).sum
      = SS_residual data + ((subjects data).map (fun p =>
          ((groupValues data p).length : ℚ)
            * (listMean (groupValues data p)
                - listMean (data.map Prod.snd)) ^ 2)).sum := by
    rw [List.map_congr_left hcongr,
      sum_map_add (subjects data)
        (fun p => ((groupValues data p).map
          (fun x => (x - listMean (groupValues data p)) ^ 2)).sum)
        (fun p => ((groupValues data p).length : ℚ)
          * (listMean (groupValues data p)
              - listMean (data.map Prod.snd)) ^ 2)]
    rfl
  have hkey : SS_total data - SS_residual data
      = ((subjects data).map (fun p => ((groupValues data p).length : ℚ)
          * (listMean (groupValues data p)
              - listMean (data.map Prod.snd)) ^ 2)).sum := by
    have ht : SS_total data = SS_residual data
        + ((subjects data).map (fun p => ((groupValues data p).length : ℚ)
            * (listMean (groupValues data p)
                - listMean (data.map Prod.snd)) ^ 2)).sum := by
      unfold SS_total
      rw [← hpart]
      exact hsplit
    rw [ht]
    ring
  unfold ANOVA_MS
  rw [hkey]
  rfl

/-- Witness for C3: the dataset [("A", 1), ("A", 2), ("B", 4)] has two
subjects and three rows. -/
theorem ANOVA_MS_decomposition_witness :
    (2 ≤ (subjects [("A", (1 : ℚ)), ("A", 2), ("B", 4)]).length ∧
      (subjects [("A", (1 : ℚ)), ("A", 2), ("B", 4)]).length
        < ([("A", (1 : ℚ)), ("A", 2), ("B", 4)] : Dataset).length) ∧
    ANOVA_MS [("A", (1 : ℚ)), ("A", 2), ("B", 4)] =
      (((subjects [("A", (1 : ℚ)), ("A", 2), ("B", 4)]).map (fun p =>
          ((groupValues [("A", (1 : ℚ)), ("A", 2), ("B", 4)] p).length : ℚ)
          * (listMean (groupValues [("A", (1 : ℚ)), ("A", 2), ("B", 4)] p)
              - listMean (([("A", (1 : ℚ)), ("A", 2), ("B", 4)] : Dataset).map
                  Prod.snd)) ^ 2)).sum
        / (((subjects [("A", (1 : ℚ)), ("A", 2), ("B", 4)]).length : ℚ) - 1),
       ((subjects [("A", (1 : ℚ)), ("A", 2), ("B", 4)]).map (fun p =>
          ((groupValues [("A", (1 : ℚ)), ("A", 2), ("B", 4)] p).map
            (fun x => (x - listMean
              (groupValues [("A", (1 : ℚ)), ("A", 2), ("B", 4)] p)) ^ 2)).sum)).sum
        / ((([("A", (1 : ℚ)), ("A", 2), ("B", 4)] : Dataset).length : ℚ)
            - ((subjects [("A", (1 : ℚ)), ("A", 2), ("B", 4)]).length : ℚ))) :=
  ⟨⟨by decide, by decide⟩,
    ANOVA_MS_decomposition [("A", (1 : ℚ)), ("A", 2), ("B", 4)]
      (by decide) (by decide)⟩

/-- Witness for C10: the one-row dataset [("A", 2)], whose bias is 2. -/
theorem degenerate_SD_zero_fraction_witness :
    ([("A", (2 : ℚ))] : Dataset) ≠ [] ∧
    (RBA_values [("A", (2 : ℚ))] 0 =
        (listMean (([("A", (2 : ℚ))] : Dataset).map Prod.snd),
          listMean (([("A", (2 : ℚ))] : Dataset).map Prod.snd),
          listMean (([("A", (2 : ℚ))] : Dataset).map Prod.snd)) ∧
      commonSenseTesting [("A", (2 : ℚ))]
          (listMean (([("A", (2 : ℚ))] : Dataset).map Prod.snd))
          (listMean (([("A", (2 : ℚ))] : Dataset).map Prod.snd)) = 0) :=
  ⟨by simp, degenerate_SD_zero_fraction [("A", (2 : ℚ))] (by simp)⟩

end RepBlandAltman
